import Mathlib

set_option maxHeartbeats 1000000

/-
Verification of the pokedex HTTP service (src/index.js) against its
specification. The service code is embedded shallowly: pure helper functions
become Lean functions, the document store becomes an explicit list of
records, and the external collaborators (HMAC primitive, network fetch)
become explicit parameters. Line references are to src/index.js.
-/

/-- JavaScript whitespace as used by String.prototype.trim and parseInt:
space, tab, line feed, carriage return, vertical tab, form feed, NBSP, BOM. -/
def isJsSpace (c : Char) : Bool :=
  c == ' ' || c == '\t' || c == '\n' || c == '\r' || c.toNat == 11 ||
    c.toNat == 12 || c.toNat == 0xA0 || c.toNat == 0xFEFF

/-- Trim on a character list: drop whitespace from both ends. -/
def jsTrimList (cs : List Char) : List Char :=
  ((cs.dropWhile isJsSpace).reverse.dropWhile isJsSpace).reverse

/-- Model of String.prototype.trim. -/
def jsTrim (s : String) : String :=
  ⟨jsTrimList s.data⟩

/-- Model of String.prototype.toLowerCase on the ASCII range (the names and
stat keys compared case-insensitively here are ASCII once normalized). -/
def toLowerStr (s : String) : String :=
  ⟨s.data.map Char.toLower⟩

/-- Value of a run of decimal digit characters. -/
def digitsToNat (ds : List Char) : Nat :=
  ds.foldl (fun acc c => 10 * acc + (c.toNat - 48)) 0

/-- Model of the JavaScript parseInt(s, 10): skip leading whitespace, read an
optional sign, then the longest run of leading decimal digits; the result is
none (NaN) when no digit is found, and trailing garbage is ignored. -/
def parseIntJs (s : String) : Option Int :=
  let cs := s.data.dropWhile isJsSpace
  let signed : Int × List Char :=
    match cs with
    | '-' :: rest => (-1, rest)
    | '+' :: rest => (1, rest)
    | _ => (1, cs)
  let digits := signed.2.takeWhile Char.isDigit
  if digits.isEmpty then none
  else some (signed.1 * (digitsToNat digits : Int))

/-- The HMAC-SHA-256 primitive used at line 81, namely
crypto.createHmac(sha256, secret).update(msg).digest(hex), is an external
cryptographic function; it is abstracted as a parameter mapping the secret
and the message to the (lowercase hex) digest string. -/
abbrev HmacFn := String → String → String

/-- Hex digit character, lowercase, for the JSON escape of control bytes. -/
def hexDigitChar (n : Nat) : Char :=
  if n < 10 then Char.ofNat (48 + n) else Char.ofNat (87 + n)

/-- Escape of one character inside a JSON string literal, as produced by
JSON.stringify. -/
def jsonEscapeChar (c : Char) : List Char :=
  if c == '"' then ['\\', '"']
  else if c == '\\' then ['\\', '\\']
  else if c == '\n' then ['\\', 'n']
  else if c == '\t' then ['\\', 't']
  else if c == '\r' then ['\\', 'r']
  else if c.toNat == 8 then ['\\', 'b']
  else if c.toNat == 12 then ['\\', 'f']
  else if c.toNat < 32 then
    ['\\', 'u', '0', '0', hexDigitChar (c.toNat / 16), hexDigitChar (c.toNat % 16)]
  else [c]

/-- JSON string escaping, as produced by JSON.stringify on a string. -/
def jsonEscape (s : String) : String :=
  ⟨(s.data.map jsonEscapeChar).flatten⟩

/-- JSON.stringify of an object whose values are the integer base stats, in
the given field order (line 82). -/
def serializeStats (l : List (String × Int)) : String :=
  "\x7b" ++
    String.intercalate ","
      (l.map (fun p => "\"" ++ jsonEscape p.1 ++ "\":" ++ toString p.2)) ++
  "\x7d"

/-- Lexicographic comparison of character lists by code point, a computable
model of the string order used by the comparator a.localeCompare(b) at
line 75 (the two orders agree on the plain ASCII stat keys). -/
def charListLe : List Char → List Char → Bool
  | [], _ => true
  | _ :: _, [] => false
  | a :: as, b :: bs =>
    if a.toNat < b.toNat then true
    else if b.toNat < a.toNat then false
    else charListLe as bs

/-- String comparison by code point, boolean valued. -/
def strLe (a b : String) : Bool :=
  charListLe a.data b.data

/-- The proposition form of strLe, used as the sorting relation. -/
def strLeP (a b : String) : Prop :=
  strLe a b = true

instance : DecidableRel strLeP :=
  fun a b => instDecidableEqBool (strLe a b) true

theorem char_eq_of_toNat_eq {a b : Char} (h : a.toNat = b.toNat) : a = b :=
  Char.ext (UInt32.toNat.inj h)

theorem charListLe_total (as bs : List Char) :
    charListLe as bs = true ∨ charListLe bs as = true := by
  induction as generalizing bs with
  | nil => left; rfl
  | cons a as ih =>
    cases bs with
    | nil => right; rfl
    | cons b bs =>
      rcases Nat.lt_trichotomy a.toNat b.toNat with h | h | h
      · left; simp [charListLe, h]
      · have hab : a = b := char_eq_of_toNat_eq h
        subst hab
        rcases ih bs with h' | h'
        · left; simp [charListLe, h']
        · right; simp [charListLe, h']
      · right; simp [charListLe, h]

theorem charListLe_trans (as bs cs : List Char)
    (h₁ : charListLe as bs = true) (h₂ : charListLe bs cs = true) :
    charListLe as cs = true := by
  induction as generalizing bs cs with
  | nil => rfl
  | cons a as ih =>
    cases bs with
    | nil => simp [charListLe] at h₁
    | cons b bs =>
      cases cs with
      | nil => simp [charListLe] at h₂
      | cons c cs =>
        simp only [charListLe] at h₁ h₂ ⊢
        by_cases hab : a.toNat < b.toNat
        · simp only [if_pos hab] at h₁
          by_cases hbc : b.toNat < c.toNat
          · simp [show a.toNat < c.toNat by omega]
          · simp only [if_neg hbc] at h₂
            by_cases hcb : c.toNat < b.toNat
            · simp [if_pos hcb] at h₂
            · simp [show a.toNat < c.toNat by omega]
        · simp only [if_neg hab] at h₁
          by_cases hba : b.toNat < a.toNat
          · simp [if_pos hba] at h₁
          · simp only [if_neg hba] at h₁
            by_cases hbc : b.toNat < c.toNat
            · simp [show a.toNat < c.toNat by omega]
            · simp only [if_neg hbc] at h₂
              by_cases hcb : c.toNat < b.toNat
              · simp [if_pos hcb] at h₂
              · rw [if_neg hcb] at h₂
                have hac : ¬ a.toNat < c.toNat := by omega
                have hca : ¬ c.toNat < a.toNat := by omega
                rw [if_neg hac, if_neg hca]
                exact ih bs cs h₁ h₂

theorem charListLe_antisymm (as bs : List Char)
    (h₁ : charListLe as bs = true) (h₂ : charListLe bs as = true) : as = bs := by
  induction as generalizing bs with
  | nil =>
    cases bs with
    | nil => rfl
    | cons b bs => simp [charListLe] at h₂
  | cons a as ih =>
    cases bs with
    | nil => simp [charListLe] at h₁
    | cons b bs =>
      simp only [charListLe] at h₁ h₂
      by_cases hab : a.toNat < b.toNat <;> by_cases hba : b.toNat < a.toNat <;>
        simp [hab, hba] at h₁ h₂
      · omega
      · have : a = b := char_eq_of_toNat_eq (by omega)
        subst this
        rw [ih bs h₁ h₂]

instance : IsTotal String strLeP :=
  ⟨fun a b => charListLe_total a.data b.data⟩

instance : IsTrans String strLeP :=
  ⟨fun a b c h₁ h₂ => charListLe_trans a.data b.data c.data h₁ h₂⟩

instance : IsAntisymm String strLeP := by
  refine ⟨fun a b h₁ h₂ => ?_⟩
  cases a with
  | mk da =>
    cases b with
    | mk db => exact congrArg String.mk (charListLe_antisymm da db h₁ h₂)

/-- Insertion step of the key sort at line 75. -/
def insertKeyJs (k : String) : List String → List String
  | [] => [k]
  | j :: rest => if strLe k j then k :: j :: rest else j :: insertKeyJs k rest

/-- Object.keys(stats).sort((a, b) => a.localeCompare(b)) at line 75,
modelled as an insertion sort (Array.prototype.sort with a consistent
comparator produces the order determined by that comparator). -/
def sortKeysJs : List String → List String
  | [] => []
  | k :: rest => insertKeyJs k (sortKeysJs rest)

/-- generateIntegritySeal (lines 74-84): sort the keys of the stats object,
rebuild the object in sorted key order via reduce, JSON-stringify it and
apply the keyed hash. The stats object is an association list whose keys are
distinct (JavaScript object keys are unique), in insertion order. -/
def generateIntegritySeal (hmac : HmacFn) (stats : List (String × Int))
    (secret : String) : String :=
  let sortedKeys := sortKeysJs (stats.map Prod.fst)
  let sortedStats := sortedKeys.filterMap (fun k => (stats.lookup k).map (fun v => (k, v)))
  hmac secret (serializeStats sortedStats)

/-- Reference definition following the specification text for the sealer:
sort the mapping keys lexicographically, serialize the resulting ordered
key/value pairs to the canonical string form, and apply the keyed hash to
that string. -/
def specIntegritySeal (hmac : HmacFn) (stats : List (String × Int))
    (secret : String) : String :=
  let sortedKeys := List.insertionSort strLeP (stats.map Prod.fst)
  let sortedStats := sortedKeys.filterMap (fun k => (stats.lookup k).map (fun v => (k, v)))
  hmac secret (serializeStats sortedStats)

theorem insertKeyJs_eq_orderedInsert (k : String) (l : List String) :
    insertKeyJs k l = List.orderedInsert strLeP k l := by
  induction l with
  | nil => rfl
  | cons j rest ih =>
    simp only [insertKeyJs, List.orderedInsert]
    by_cases h : strLeP k j
    · rw [if_pos h, if_pos]
      exact h
    · rw [if_neg h, if_neg, ih]
      exact h

theorem sortKeysJs_eq_insertionSort (l : List String) :
    sortKeysJs l = List.insertionSort strLeP l := by
  induction l with
  | nil => rfl
  | cons k rest ih =>
    simp only [sortKeysJs, List.insertionSort, ih, insertKeyJs_eq_orderedInsert]

theorem sortKeysJs_perm (l : List String) : (sortKeysJs l).Perm l := by
  rw [sortKeysJs_eq_insertionSort]
  exact List.perm_insertionSort _ l

theorem sortKeysJs_sorted (l : List String) : (sortKeysJs l).Sorted strLeP := by
  rw [sortKeysJs_eq_insertionSort]
  exact List.sorted_insertionSort _ l

/-- Sorting the keys is canonical: two key lists holding the same keys sort
to the same list. -/
theorem sortKeysJs_congr_perm {l₁ l₂ : List String} (h : l₁.Perm l₂) :
    sortKeysJs l₁ = sortKeysJs l₂ := by
  refine List.eq_of_perm_of_sorted ?_ (sortKeysJs_sorted l₁) (sortKeysJs_sorted l₂)
  exact ((sortKeysJs_perm l₁).trans h).trans (sortKeysJs_perm l₂).symm

/-- With distinct keys, association list lookup finds exactly the member
pairs. -/
theorem lookup_eq_some_iff {l : List (String × Int)}
    (nd : (l.map Prod.fst).Nodup) (k : String) (v : Int) :
    l.lookup k = some v ↔ (k, v) ∈ l := by
  induction l with
  | nil => simp
  | cons p t ih =>
    obtain ⟨k₁, v₁⟩ := p
    simp only [List.map_cons, List.nodup_cons] at nd
    rw [List.lookup_cons]
    by_cases h : k = k₁
    · subst h
      have hmem : (k, v) ∉ t := fun hm => nd.1 (List.mem_map.mpr ⟨(k, v), hm, rfl⟩)
      simp only [beq_self_eq_true]
      constructor
      · intro hv
        exact List.mem_cons.mpr (Or.inl (by simpa using hv.symm))
      · intro hv
        rcases List.mem_cons.mp hv with h' | h'
        · simp [Prod.mk.injEq] at h'
          simp [h']
        · exact absurd h' hmem
    · have hb : (k == k₁) = false := beq_eq_false_iff_ne.mpr h
      rw [hb]
      simp only [List.mem_cons, Prod.mk.injEq]
      rw [ih nd.2]
      constructor
      · intro hm; exact Or.inr hm
      · intro hm
        rcases hm with h' | h'
        · exact absurd h'.1 h
        · exact h'

/-- Association list lookup is determined by the set of entries when keys
are distinct. -/
theorem lookup_eq_of_perm (k : String) {l₁ l₂ : List (String × Int)}
    (hp : l₁.Perm l₂) (nd : (l₁.map Prod.fst).Nodup) :
    l₁.lookup k = l₂.lookup k := by
  have nd₂ : (l₂.map Prod.fst).Nodup := ((hp.map Prod.fst).nodup_iff).mp nd
  cases h₁ : l₁.lookup k with
  | none =>
    cases h₂ : l₂.lookup k with
    | none => rfl
    | some v =>
      have : (k, v) ∈ l₁ := hp.symm.subset ((lookup_eq_some_iff nd₂ k v).mp h₂)
      rw [← lookup_eq_some_iff nd k v] at this
      rw [this] at h₁
      cases h₁
  | some v =>
    have : (k, v) ∈ l₂ := hp.subset ((lookup_eq_some_iff nd k v).mp h₁)
    rw [← lookup_eq_some_iff nd₂ k v] at this
    rw [this]

example : parseIntJs "  42abc" = some 42 := by decide
example : parseIntJs "abc" = none := by decide
example : parseIntJs "-7" = some (-7) := by decide
example : sortKeysJs ["hp", "attack", "speed"] = ["attack", "hp", "speed"] := by decide
example : serializeStats [("hp", 35)] = "\x7b\"hp\":35\x7d" := by decide

/-- C1: for every base-stat mapping M and secret S, the integrity seal is
deterministic and insensitive to key insertion order: sealing M twice with S
yields the same hex digest, and two mappings holding the same key/value
pairs in different insertion orders seal to equal digests. -/
theorem generateIntegritySeal_deterministic_and_order_insensitive
    (hmac : HmacFn) (S : String) (M₁ M₂ : List (String × Int))
    (nd : (M₁.map Prod.fst).Nodup) (hp : M₁.Perm M₂) :
    generateIntegritySeal hmac M₁ S = generateIntegritySeal hmac M₁ S ∧
    generateIntegritySeal hmac M₁ S = generateIntegritySeal hmac M₂ S := by
  refine ⟨rfl, ?_⟩
  have hkeys : sortKeysJs (M₁.map Prod.fst) = sortKeysJs (M₂.map Prod.fst) :=
    sortKeysJs_congr_perm (hp.map Prod.fst)
  have hfun :
      (fun k => (M₁.lookup k).map (fun v => (k, v))) =
      (fun k => (M₂.lookup k).map (fun v => (k, v))) :=
    funext (fun k => by rw [lookup_eq_of_perm k hp nd])
  simp only [generateIntegritySeal]
  rw [hkeys, hfun]

/-- Concrete instantiation of the determinism and order insensitivity of the
integrity seal at a two-entry stat mapping. -/
theorem generateIntegritySeal_order_insensitive_witness :
    (([("hp", (35 : Int)), ("attack", 55)].map Prod.fst).Nodup ∧
      List.Perm [("hp", (35 : Int)), ("attack", 55)] [("attack", 55), ("hp", 35)]) ∧
    generateIntegritySeal (fun s m => s ++ "|" ++ m) [("hp", 35), ("attack", 55)] "sec" =
      generateIntegritySeal (fun s m => s ++ "|" ++ m) [("attack", 55), ("hp", 35)] "sec" :=
  ⟨⟨by decide, by decide⟩,
    (generateIntegritySeal_deterministic_and_order_insensitive
      (fun s m => s ++ "|" ++ m) "sec" _ _ (by decide) (by decide)).2⟩

/-- C2: the integrity seal equals the reference definition: sort the mapping
keys lexicographically, serialize the ordered key/value pairs to the
canonical string, and apply the keyed hash (HMAC-SHA-256 rendered as
lowercase hex, abstracted as the hmac parameter). -/
theorem generateIntegritySeal_eq_spec (hmac : HmacFn) (M : List (String × Int))
    (S : String) :
    generateIntegritySeal hmac M S = specIntegritySeal hmac M S := by
  simp only [generateIntegritySeal, specIntegritySeal, sortKeysJs_eq_insertionSort]

/-- Models String.prototype.normalize applied with NFD at line 68: the
Unicode canonical decomposition, given here for the precomposed Latin
letters relevant to the stored names (Latin-1 Supplement and the long-vowel
letters of Latin Extended-A); any other character is returned unchanged
(ASCII characters and combining marks are already NFD-normal). -/
def nfdChar (c : Char) : List Char :=
  match c with
  | 'À' => ['A', '̀'] | 'Á' => ['A', '́'] | 'Â' => ['A', '̂']
  | 'Ã' => ['A', '̃'] | 'Ä' => ['A', '̈'] | 'Å' => ['A', '̊']
  | 'Ç' => ['C', '̧']
  | 'È' => ['E', '̀'] | 'É' => ['E', '́'] | 'Ê' => ['E', '̂']
  | 'Ë' => ['E', '̈']
  | 'Ì' => ['I', '̀'] | 'Í' => ['I', '́'] | 'Î' => ['I', '̂']
  | 'Ï' => ['I', '̈']
  | 'Ñ' => ['N', '̃']
  | 'Ò' => ['O', '̀'] | 'Ó' => ['O', '́'] | 'Ô' => ['O', '̂']
  | 'Õ' => ['O', '̃'] | 'Ö' => ['O', '̈']
  | 'Ù' => ['U', '̀'] | 'Ú' => ['U', '́'] | 'Û' => ['U', '̂']
  | 'Ü' => ['U', '̈']
  | 'Ý' => ['Y', '́']
  | 'à' => ['a', '̀'] | 'á' => ['a', '́'] | 'â' => ['a', '̂']
  | 'ã' => ['a', '̃'] | 'ä' => ['a', '̈'] | 'å' => ['a', '̊']
  | 'ç' => ['c', '̧']
  | 'è' => ['e', '̀'] | 'é' => ['e', '́'] | 'ê' => ['e', '̂']
  | 'ë' => ['e', '̈']
  | 'ì' => ['i', '̀'] | 'í' => ['i', '́'] | 'î' => ['i', '̂']
  | 'ï' => ['i', '̈']
  | 'ñ' => ['n', '̃']
  | 'ò' => ['o', '̀'] | 'ó' => ['o', '́'] | 'ô' => ['o', '̂']
  | 'õ' => ['o', '̃'] | 'ö' => ['o', '̈']
  | 'ù' => ['u', '̀'] | 'ú' => ['u', '́'] | 'û' => ['u', '̂']
  | 'ü' => ['u', '̈']
  | 'ý' => ['y', '́'] | 'ÿ' => ['y', '̈']
  | 'Ā' => ['A', '̄'] | 'ā' => ['a', '̄']
  | 'Ē' => ['E', '̄'] | 'ē' => ['e', '̄']
  | 'Ī' => ['I', '̄'] | 'ī' => ['i', '̄']
  | 'Ō' => ['O', '̄'] | 'ō' => ['o', '̄']
  | 'Ū' => ['U', '̄'] | 'ū' => ['u', '̄']
  | _ => [c]

/-- The combining mark range stripped by the regex at line 69
(U+0300 through U+036F). -/
def isCombiningMark (c : Char) : Bool :=
  0x300 ≤ c.toNat && c.toNat ≤ 0x36F

/-- normalizeForSearch (lines 66-72): NFD-decompose, strip combining marks,
lowercase, trim. The result is kept as a character list. Lowercasing is
modelled on the ASCII range (the table of nfdChar decomposes the stored
accented letters to ASCII base letters before this step). -/
def normalizeForSearch (s : String) : List Char :=
  jsTrimList
    (((s.data.map nfdChar).flatten.filter (fun c => !(isCombiningMark c))).map
      Char.toLower)

/-- Does the second list start with the first. -/
def startsWithList : List Char → List Char → Bool
  | _, [] => true
  | [], _ :: _ => false
  | a :: as, b :: bs => a == b && startsWithList as bs

/-- Model of String.prototype.includes: the needle occurs contiguously in
the haystack. -/
def containsSub (needle : List Char) : List Char → Bool
  | [] => needle.isEmpty
  | a :: t => startsWithList (a :: t) needle || containsSub needle t

/-- The localized name object of a record (data model section 3). -/
structure PokeName where
  english : String
  french : String
deriving DecidableEq, Repr

/-- A pokemon record of the record store. The base field is an association
list with distinct keys, optional because stored documents may lack it. -/
structure Pokemon where
  id : Int
  name : PokeName
  type : List String
  base : Option (List (String × Int))
  image : String
deriving DecidableEq, Repr

/-- A record as shaped for a response: the plain record plus the derived
integrityHash field (withIntegrityHash, lines 86-93). -/
structure SealedPokemon where
  record : Pokemon
  integrityHash : String
deriving DecidableEq, Repr

/-- withIntegrityHash (lines 86-93): attach the seal of the base stats; a
missing base reaches generateIntegritySeal as undefined and the default
parameter substitutes the empty object. -/
def withIntegrityHash (hmac : HmacFn) (secret : String) (doc : Pokemon) :
    SealedPokemon :=
  ⟨doc, generateIntegritySeal hmac (doc.base.getD []) secret⟩

/-- An HTTP response: status code, optional JSON body, optional error
payload. -/
structure ApiResponse (α : Type) where
  status : Nat
  body : Option α
  error : Option String
deriving DecidableEq, Repr

/-- GET /pokemons (lines 176-183), success path of the store. -/
def getPokemons (hmac : HmacFn) (secret : String) (store : List Pokemon) :
    ApiResponse (List SealedPokemon) :=
  ⟨200, some (store.map (withIntegrityHash hmac secret)), none⟩

/-- GET /pokemons/:id (lines 197-208): parse the id parameter, look up the
record by exact id; an unparseable id is NaN, which matches no record. -/
def getPokemonById (hmac : HmacFn) (secret : String) (store : List Pokemon)
    (idParam : String) : ApiResponse SealedPokemon :=
  let pokeId := parseIntJs idParam
  match store.find? (fun p => pokeId == some p.id) with
  | some p => ⟨200, some (withIntegrityHash hmac secret p), none⟩
  | none => ⟨404, none, some "Pokemon not found"⟩

/-- GET /pokemonByName/:name (lines 210-221): exact english name match. -/
def getPokemonByName (hmac : HmacFn) (secret : String) (store : List Pokemon)
    (nameParam : String) : ApiResponse SealedPokemon :=
  match store.find? (fun p => p.name.english == nameParam) with
  | some p => ⟨200, some (withIntegrityHash hmac secret p), none⟩
  | none => ⟨404, none, some "Pokemon not found"⟩

/-- Case-insensitive full-string match, the model of the escaped anchored
regex with the i flag used at lines 230-231 and 318-319. -/
def matchesCI (a b : String) : Bool :=
  toLowerStr a == toLowerStr b

/-- GET /pokemonExactByName/:name (lines 223-248): trimmed input, anchored
case-insensitive match on either locale name. -/
def getPokemonExactByName (hmac : HmacFn) (secret : String)
    (store : List Pokemon) (nameParam : String) : ApiResponse SealedPokemon :=
  let inputName := jsTrim nameParam
  if inputName = "" then ⟨400, none, some "name is required"⟩
  else
    match store.find? (fun p =>
        matchesCI p.name.english inputName || matchesCI p.name.french inputName) with
    | some p => ⟨200, some (withIntegrityHash hmac secret p), none⟩
    | none => ⟨404, none, some "Pokemon not found"⟩

/-- The filter predicate of the search endpoint (lines 260-264): the
normalized query occurs in a normalized locale name. -/
def searchMatches (nq : List Char) (p : Pokemon) : Bool :=
  containsSub nq (normalizeForSearch p.name.english) ||
    containsSub nq (normalizeForSearch p.name.french)

/-- GET /pokemonsSearch (lines 250-272): empty trimmed query answers the
empty list; otherwise filter a batch of at most 1000 records by normalized
substring containment and return at most 50 sealed records. -/
def pokemonsSearch (hmac : HmacFn) (secret : String) (store : List Pokemon)
    (q : Option String) : ApiResponse (List SealedPokemon) :=
  let name := jsTrim (q.getD "")
  if name = "" then ⟨200, some [], none⟩
  else
    let normalizedQuery := normalizeForSearch name
    let allPokemons := store.take 1000
    let filtered := allPokemons.filter (searchMatches normalizedQuery)
    ⟨200, some ((filtered.take 50).map (withIntegrityHash hmac secret)), none⟩

example : normalizeForSearch "  Pïkāchu " = "pikachu".data := by decide
example : containsSub "pika".data "xpikachu".data = true := by decide
example : containsSub "pika".data "pizza".data = false := by decide

/-- A sealed response whose record field equals a base-less record carries
the seal of the empty mapping. -/
theorem sealed_hash_of_record_eq (hmac : HmacFn) (secret : String)
    {p d : Pokemon} (hb : d.base = none)
    (h : (withIntegrityHash hmac secret p).record = d) :
    (withIntegrityHash hmac secret p).integrityHash =
      generateIntegritySeal hmac [] secret := by
  have hpd : p = d := h
  subst hpd
  simp [withIntegrityHash, hb]

/-- C5: the search endpoint returns the empty list with status 200 on an
empty or whitespace-only (or absent) query; on a non-empty query every
returned entry is the sealed form of a record drawn from the internal batch
of at most 1000 whose normalized english or french name contains the
normalized query as a substring; at most 50 entries are returned; and when
at most 50 batch records match, every matching batch record appears in the
result. -/
theorem pokemonsSearch_spec (hmac : HmacFn) (secret : String)
    (store : List Pokemon) (q : Option String) :
    (jsTrim (q.getD "") = "" →
      pokemonsSearch hmac secret store q = ⟨200, some [], none⟩) ∧
    (pokemonsSearch hmac secret store q).status = 200 ∧
    (∀ x ∈ (pokemonsSearch hmac secret store q).body.getD [],
      ∃ p, p ∈ store.take 1000 ∧
        searchMatches (normalizeForSearch (jsTrim (q.getD ""))) p = true ∧
        x = withIntegrityHash hmac secret p) ∧
    ((pokemonsSearch hmac secret store q).body.getD []).length ≤ 50 ∧
    (jsTrim (q.getD "") ≠ "" →
      ((store.take 1000).filter
        (searchMatches (normalizeForSearch (jsTrim (q.getD ""))))).length ≤ 50 →
      ∀ p ∈ store.take 1000,
        searchMatches (normalizeForSearch (jsTrim (q.getD ""))) p = true →
        withIntegrityHash hmac secret p ∈
          (pokemonsSearch hmac secret store q).body.getD []) := by
  by_cases h : jsTrim (q.getD "") = ""
  · refine ⟨fun _ => ?_, ?_, ?_, ?_, ?_⟩
    · simp [pokemonsSearch, h]
    · simp [pokemonsSearch, h]
    · intro x hx
      simp [pokemonsSearch, h] at hx
    · simp [pokemonsSearch, h]
    · intro hne
      exact absurd h hne
  · simp only [pokemonsSearch, if_neg h]
    refine ⟨fun h' => absurd h' h, by trivial, ?_, ?_, ?_⟩
    · intro x hx
      simp only [Option.getD_some] at hx
      obtain ⟨p, hp, hxp⟩ := List.mem_map.mp hx
      have hp' := List.mem_of_mem_take hp
      have := List.mem_filter.mp hp'
      exact ⟨p, this.1, this.2, hxp.symm⟩
    · simp only [Option.getD_some, List.length_map]
      exact List.length_take_le _ _
    · intro _ hlen p hp hm
      simp only [Option.getD_some]
      rw [List.take_of_length_le hlen]
      exact List.mem_map.mpr ⟨p, List.mem_filter.mpr ⟨hp, hm⟩, rfl⟩

/-- Concrete instantiation of the search contract: the query pikachu finds
the stored record whose french name is Pïkāchu (precomposed accents that the
normalization decomposes and strips). -/
theorem pokemonsSearch_witness :
    jsTrim ((some "pikachu").getD "") ≠ "" ∧
    withIntegrityHash (fun s m => s ++ "|" ++ m) "sec"
        ⟨1, ⟨"Pikachu", "Pïkāchu"⟩, ["electric"], some [("hp", 35)], "img"⟩ ∈
      (pokemonsSearch (fun s m => s ++ "|" ++ m) "sec"
        [⟨1, ⟨"Pikachu", "Pïkāchu"⟩, ["electric"], some [("hp", 35)], "img"⟩]
        (some "pikachu")).body.getD [] :=
  ⟨by decide,
    (pokemonsSearch_spec (fun s m => s ++ "|" ++ m) "sec"
        [⟨1, ⟨"Pikachu", "Pïkāchu"⟩, ["electric"], some [("hp", 35)], "img"⟩]
        (some "pikachu")).2.2.2.2
      (by decide) (by decide) _ (by decide) (by decide)⟩

/-- C9: a stored record lacking the base field still receives an
integrityHash on every read endpoint, namely the seal of the empty mapping,
rather than the field being omitted or the request failing. -/
theorem withIntegrityHash_missing_base (hmac : HmacFn) (secret : String)
    (store : List Pokemon) (d : Pokemon) (hd : d ∈ store) (hb : d.base = none) :
    (withIntegrityHash hmac secret d).integrityHash =
      generateIntegritySeal hmac [] secret ∧
    withIntegrityHash hmac secret d ∈ (getPokemons hmac secret store).body.getD [] ∧
    (∀ idp s, (getPokemonById hmac secret store idp).body = some s →
      s.record = d → s.integrityHash = generateIntegritySeal hmac [] secret) ∧
    (∀ n s, (getPokemonByName hmac secret store n).body = some s →
      s.record = d → s.integrityHash = generateIntegritySeal hmac [] secret) ∧
    (∀ n s, (getPokemonExactByName hmac secret store n).body = some s →
      s.record = d → s.integrityHash = generateIntegritySeal hmac [] secret) ∧
    (∀ q s, s ∈ (pokemonsSearch hmac secret store q).body.getD [] →
      s.record = d → s.integrityHash = generateIntegritySeal hmac [] secret) := by
  refine ⟨sealed_hash_of_record_eq hmac secret hb rfl, ?_, ?_, ?_, ?_, ?_⟩
  · simp only [getPokemons, Option.getD_some]
    exact List.mem_map.mpr ⟨d, hd, rfl⟩
  · intro idp s hbody hrec
    simp only [getPokemonById] at hbody
    cases hfind : List.find? (fun p => parseIntJs idp == some p.id) store with
    | none => rw [hfind] at hbody; cases hbody
    | some p =>
      rw [hfind] at hbody
      simp only [Option.some.injEq] at hbody
      subst hbody
      exact sealed_hash_of_record_eq hmac secret hb hrec
  · intro n s hbody hrec
    simp only [getPokemonByName] at hbody
    cases hfind : List.find? (fun p => p.name.english == n) store with
    | none => rw [hfind] at hbody; cases hbody
    | some p =>
      rw [hfind] at hbody
      simp only [Option.some.injEq] at hbody
      subst hbody
      exact sealed_hash_of_record_eq hmac secret hb hrec
  · intro n s hbody hrec
    simp only [getPokemonExactByName] at hbody
    by_cases hn : jsTrim n = ""
    · rw [if_pos hn] at hbody; cases hbody
    · rw [if_neg hn] at hbody
      cases hfind : List.find? (fun p =>
          matchesCI p.name.english (jsTrim n) || matchesCI p.name.french (jsTrim n)) store with
      | none => rw [hfind] at hbody; cases hbody
      | some p =>
        rw [hfind] at hbody
        simp only [Option.some.injEq] at hbody
        subst hbody
        exact sealed_hash_of_record_eq hmac secret hb hrec
  · intro qq s hmem hrec
    obtain ⟨p, _, _, hxp⟩ :=
      (pokemonsSearch_spec hmac secret store qq).2.2.1 s hmem
    subst hxp
    exact sealed_hash_of_record_eq hmac secret hb hrec

/-- Concrete instantiation: a base-less record in the listing carries the
seal of the empty mapping. -/
theorem withIntegrityHash_missing_base_witness :
    (withIntegrityHash (fun s m => s ++ "|" ++ m) "sec"
        ⟨2, ⟨"Mew", "Mew"⟩, ["psychic"], none, "img"⟩).integrityHash =
      generateIntegritySeal (fun s m => s ++ "|" ++ m) [] "sec" :=
  (withIntegrityHash_missing_base (fun s m => s ++ "|" ++ m) "sec"
      [⟨2, ⟨"Mew", "Mew"⟩, ["psychic"], none, "img"⟩]
      ⟨2, ⟨"Mew", "Mew"⟩, ["psychic"], none, "img"⟩
      (by decide) rfl).1

/-- C10: a get-by-id request whose id parameter does not parse as an integer
behaves as an absent id: the response is the 404 not-found payload, not a
400 or 500. -/
theorem getPokemonById_unparseable (hmac : HmacFn) (secret : String)
    (store : List Pokemon) (idp : String) (h : parseIntJs idp = none) :
    getPokemonById hmac secret store idp = ⟨404, none, some "Pokemon not found"⟩ := by
  simp only [getPokemonById, h]
  have hfind : store.find? (fun p => (none : Option Int) == some p.id) = none := by
    apply List.find?_eq_none.mpr
    intro p _
    simp
  rw [hfind]

/-- Concrete instantiation: the id parameter abc yields the 404 payload on a
non-empty store. -/
theorem getPokemonById_unparseable_witness :
    getPokemonById (fun s m => s ++ "|" ++ m) "sec"
        [⟨1, ⟨"Pikachu", "Pikachu"⟩, ["electric"], some [("hp", 35)], "img"⟩]
        "abc" = ⟨404, none, some "Pokemon not found"⟩ :=
  getPokemonById_unparseable (fun s m => s ++ "|" ++ m) "sec"
    [⟨1, ⟨"Pikachu", "Pikachu"⟩, ["electric"], some [("hp", 35)], "img"⟩]
    "abc" (by decide)

/-- An audit log entry (the auditLog schema); createdAt comes from the
timestamps option of the schema, modelled as a numeric timestamp. -/
structure AuditEntry where
  action : String
  pokemonName : String
  sourceIp : String
  statusCode : Nat
  createdAt : Nat
deriving DecidableEq, Repr

/-- Newest-first ordering on audit entries (sort createdAt descending,
line 280). -/
def newerEq (a b : AuditEntry) : Prop :=
  b.createdAt ≤ a.createdAt

instance : DecidableRel newerEq :=
  fun a b => Nat.decLe b.createdAt a.createdAt

instance : IsTotal AuditEntry newerEq :=
  ⟨fun a b => Nat.le_total b.createdAt a.createdAt⟩

instance : IsTrans AuditEntry newerEq :=
  ⟨fun _ _ _ h₁ h₂ => Nat.le_trans h₂ h₁⟩

/-- The case-insensitive anchored match on pokemonName (line 279). -/
def auditMatches (nm : String) (e : AuditEntry) : Bool :=
  matchesCI e.pokemonName nm

/-- The limit query parameter before parsing: an absent or empty parameter
falls back to the literal 20 (line 277). -/
def rawLimit : Option String → String
  | none => "20"
  | some s => if s = "" then "20" else s

/-- Math.min on two numbers. -/
def jsMinInt (a b : Int) : Int :=
  if a ≤ b then a else b

/-- Math.max on two numbers. -/
def jsMaxInt (a b : Int) : Int :=
  if a ≤ b then b else a

/-- The effective limit Math.max(1, Math.min(parseInt(raw, 10), 100)) at
line 277; none models NaN, which Math.min and Math.max propagate. -/
def effectiveLimit (lp : Option String) : Option Int :=
  (parseIntJs (rawLimit lp)).map (fun k => jsMaxInt 1 (jsMinInt k 100))

/-- The store query of GET /auditLogs/:name (lines 279-282): filter by the
anchored case-insensitive name match, sort by createdAt newest first. -/
def auditLogsQuery (store : List AuditEntry) (nm : String) : List AuditEntry :=
  List.insertionSort newerEq (store.filter (auditMatches nm))

/-- GET /auditLogs/:name (lines 274-288). The name parameter arrives
URL-decoded (decodeURIComponent is external) and is trimmed. When the limit
parameter is present but unparseable, the computed limit is NaN and the
behaviour of the store driver on a NaN limit is outside this code; the
model is undefined (none) in that case. -/
def auditLogs (store : List AuditEntry) (nameParam : String)
    (lp : Option String) : Option (Nat × List AuditEntry) :=
  (effectiveLimit lp).map
    (fun lim => (200, (auditLogsQuery store (jsTrim nameParam)).take lim.toNat))

/-- C8 counterexample: for the audit-lookup request carrying the limit
parameter abc, the computed effective limit is NaN (modelled none), not a
value clamped into 1..100, so the claim as stated fails for that request. -/
theorem effectiveLimit_nan_counterexample :
    effectiveLimit (some "abc") = none := by decide

/-- C8 amended: when no limit is supplied the effective limit is 20;
whenever the effective limit is a number it lies in 1..100; and on any
defined outcome the status is 200, every returned entry is a store entry
whose pokemonName matches the requested name case-insensitively as a full
string, entries are ordered newest first, at most the effective limit of
entries is returned, and when no more than the limit match, every matching
entry is returned. -/
theorem auditLogs_spec (store : List AuditEntry) (nm : String)
    (lp : Option String) :
    effectiveLimit none = some 20 ∧
    (∀ j, effectiveLimit lp = some j → 1 ≤ j ∧ j ≤ 100) ∧
    (∀ st out, auditLogs store nm lp = some (st, out) →
      st = 200 ∧
      (∀ e ∈ out, e ∈ store ∧ auditMatches (jsTrim nm) e = true) ∧
      out.Sorted newerEq ∧
      (∀ j, effectiveLimit lp = some j → out.length ≤ j.toNat) ∧
      (∀ j, effectiveLimit lp = some j →
        (store.filter (auditMatches (jsTrim nm))).length ≤ j.toNat →
        ∀ e ∈ store, auditMatches (jsTrim nm) e = true → e ∈ out)) := by
  refine ⟨by decide, ?_, ?_⟩
  · intro j hj
    simp only [effectiveLimit, Option.map_eq_some'] at hj
    obtain ⟨k, _, hk⟩ := hj
    subst hk
    unfold jsMaxInt jsMinInt
    split_ifs <;> omega
  · intro st out hout
    simp only [auditLogs, Option.map_eq_some'] at hout
    obtain ⟨lim, hlim, hpair⟩ := hout
    obtain ⟨hst, hsnd⟩ := Prod.ext_iff.mp hpair
    have hst2 : st = 200 := hst.symm
    have hout2 : out = (auditLogsQuery store (jsTrim nm)).take lim.toNat :=
      hsnd.symm
    subst hst2
    refine ⟨rfl, ?_, ?_, ?_, ?_⟩
    · intro e he
      rw [hout2] at he
      have he' := List.mem_of_mem_take he
      have hmem := (List.perm_insertionSort newerEq _).mem_iff.mp he'
      exact ⟨(List.mem_filter.mp hmem).1, (List.mem_filter.mp hmem).2⟩
    · rw [hout2]
      exact List.Pairwise.sublist (List.take_sublist _ _)
        (List.sorted_insertionSort newerEq _)
    · intro j hj
      have hjl : j = lim := Option.some.inj (by rw [← hj, hlim])
      subst hjl
      rw [hout2]
      exact List.length_take_le _ _
    · intro j hj hlen e he hm
      have hjl : j = lim := Option.some.inj (by rw [← hj, hlim])
      subst hjl
      rw [hout2, auditLogsQuery]
      have hlenq : (List.insertionSort newerEq
          (store.filter (auditMatches (jsTrim nm)))).length ≤ j.toNat := by
        rw [(List.perm_insertionSort newerEq _).length_eq]
        exact hlen
      rw [List.take_of_length_le hlenq]
      exact (List.perm_insertionSort newerEq _).mem_iff.mpr
        (List.mem_filter.mpr ⟨he, hm⟩)

/-- Concrete instantiation of the audit lookup: with a default limit, the
entry with the larger timestamp is returned (newest first) for a
case-insensitively matching name. -/
theorem auditLogs_spec_witness :
    (⟨"DELETE", "pika", "ip", 200, 5⟩ : AuditEntry) ∈
      [(⟨"DELETE", "pika", "ip", 200, 5⟩ : AuditEntry),
       ⟨"CREATE", "Pika", "ip", 201, 1⟩] :=
  ((auditLogs_spec
      [⟨"CREATE", "Pika", "ip", 201, 1⟩, ⟨"DELETE", "pika", "ip", 200, 5⟩]
      "Pika" none).2.2 200
      [⟨"DELETE", "pika", "ip", 200, 5⟩, ⟨"CREATE", "Pika", "ip", 201, 1⟩]
      (by decide)).2.2.2.2 20 (by decide) (by decide)
    ⟨"DELETE", "pika", "ip", 200, 5⟩ (by decide) (by decide)

/-- A JavaScript value as it can appear in a JSON request body (numbers are
the integer values relevant to this service). -/
inductive JsVal where
  | undefined : JsVal
  | null : JsVal
  | bool : Bool → JsVal
  | num : Int → JsVal
  | str : String → JsVal
  | arr : List JsVal → JsVal
  | obj : List (String × JsVal) → JsVal

/-- JavaScript truthiness. -/
def truthy : JsVal → Bool
  | .undefined => false
  | .null => false
  | .bool b => b
  | .num n => n != 0
  | .str s => s != ""
  | .arr _ => true
  | .obj _ => true

/-- Property access with optional chaining: the named field of an object,
undefined otherwise (no own properties of primitives are read here). -/
def getField : JsVal → String → JsVal
  | .obj fs, k => (fs.lookup k).getD .undefined
  | _, _ => .undefined

/-- Is the value a string (typeof v === the string tag). -/
def isStringVal : JsVal → Bool
  | .str _ => true
  | _ => false

/-- typeof v === the object tag: null, arrays and plain objects. -/
def typeofIsObject : JsVal → Bool
  | .null => true
  | .arr _ => true
  | .obj _ => true
  | _ => false

/-- Array.isArray(v) with at least one element. -/
def isNonEmptyArray : JsVal → Bool
  | .arr xs => !xs.isEmpty
  | _ => false

/-- Is the value absent (undefined). -/
def isUndef : JsVal → Bool
  | .undefined => true
  | _ => false

/-- A non-null object value: a plain object or an array. -/
def isObjectLike : JsVal → Bool
  | .arr _ => true
  | .obj _ => true
  | _ => false

/-- A non-empty string value. -/
def nonEmptyStr : JsVal → Bool
  | .str s => s != ""
  | _ => false

/-- The shape validation of the create endpoint (lines 303-314), answering
the field-specific 400 message of the first failing check, or none when all
four checks pass. -/
def validateCreate (body : JsVal) : Option String :=
  let name := getField body "name"
  if !(truthy (getField name "english")) || !(truthy (getField name "french")) then
    some "name.english and name.french are required"
  else if !(isNonEmptyArray (getField body "type")) then
    some "type must be a non-empty array"
  else if !(truthy (getField body "base") && typeofIsObject (getField body "base")) then
    some "base stats are required"
  else if !(truthy (getField body "imageUrl") && isStringVal (getField body "imageUrl")) then
    some "imageUrl is required"
  else none

/-- The validation-failure condition with the wording of the claim:
name.english or name.french is missing (absent, undefined), or type is not a
non-empty array, or base is not an object (arrays count as objects, as the
typeof test does), or imageUrl is not a non-empty string. -/
def claimValidationFails (body : JsVal) : Bool :=
  let name := getField body "name"
  isUndef (getField name "english") || isUndef (getField name "french") ||
    !(isNonEmptyArray (getField body "type")) ||
    !(isObjectLike (getField body "base")) ||
    !(nonEmptyStr (getField body "imageUrl"))

/-- The amended validation-failure condition: as the claim, except that a
name locale fails the check not only when missing but whenever it is not
truthy (for example the empty string). -/
def amendedValidationFails (body : JsVal) : Bool :=
  let name := getField body "name"
  !(truthy (getField name "english")) || !(truthy (getField name "french")) ||
    !(isNonEmptyArray (getField body "type")) ||
    !(isObjectLike (getField body "base")) ||
    !(nonEmptyStr (getField body "imageUrl"))

/-- A body whose name.english is present but empty: both locales are
present, yet validation fails, refuting the claim as stated. -/
def bodyEmptyEnglish : JsVal :=
  .obj [("name", .obj [("english", .str ""), ("french", .str "Pika")]),
        ("type", .arr [.str "electric"]),
        ("base", .obj [("hp", .num 35)]),
        ("imageUrl", .str "http://img.example/p.png")]

/-- C6 counterexample: a body with an empty (but present) name.english fails
validation although none of the four conditions of the claim holds, so the
claimed exact characterization of the 400 responses is refuted. -/
theorem validateCreate_counterexample :
    (validateCreate bodyEmptyEnglish).isSome = true ∧
    claimValidationFails bodyEmptyEnglish = false :=
  ⟨rfl, rfl⟩

theorem base_cond (v : JsVal) : (truthy v && typeofIsObject v) = isObjectLike v := by
  cases v <;> simp [truthy, typeofIsObject, isObjectLike]

theorem img_cond (v : JsVal) : (truthy v && isStringVal v) = nonEmptyStr v := by
  cases v <;> simp [truthy, isStringVal, nonEmptyStr]

/-- The validation outcome is exactly characterized by the amended
condition. -/
theorem validateCreate_isSome_eq (body : JsVal) :
    (validateCreate body).isSome = amendedValidationFails body := by
  simp only [validateCreate, amendedValidationFails]
  rw [← base_cond, ← img_cond]
  cases truthy (getField (getField body "name") "english") <;>
    cases truthy (getField (getField body "name") "french") <;>
      cases isNonEmptyArray (getField body "type") <;>
        cases (truthy (getField body "base") && typeofIsObject (getField body "base")) <;>
          cases (truthy (getField body "imageUrl") && isStringVal (getField body "imageUrl")) <;>
            rfl

/-- C6 amended: validation fails with a 400 and one of the four
field-specific messages exactly when name.english or name.french is missing
or not truthy, or type is not a non-empty array, or base is not a non-null
object or array, or imageUrl is not a non-empty string; when all four checks
pass no 400 is produced. -/
theorem validateCreate_amended_spec (body : JsVal) :
    ((validateCreate body).isSome = true ↔ amendedValidationFails body = true) ∧
    (∀ m, validateCreate body = some m →
      m = "name.english and name.french are required" ∨
      m = "type must be a non-empty array" ∨
      m = "base stats are required" ∨
      m = "imageUrl is required") := by
  constructor
  · rw [validateCreate_isSome_eq body]
  · simp only [validateCreate]
    cases truthy (getField (getField body "name") "english") <;>
      cases truthy (getField (getField body "name") "french") <;>
        cases isNonEmptyArray (getField body "type") <;>
          cases (truthy (getField body "base") && typeofIsObject (getField body "base")) <;>
            cases (truthy (getField body "imageUrl") && isStringVal (getField body "imageUrl")) <;>
              intro m hm <;>
                first
                  | exact (Option.noConfusion hm)
                  | (obtain rfl := (Option.some.inj hm).symm; simp)

/-- The image bytes and content type of a successful download. -/
structure DownloadedImage where
  contentType : String
  bytes : List Nat
deriving DecidableEq, Repr

/-- The relevant parts of the fetch response for the image URL (the network
call at line 150 is external): success flag, status code, content-type
header when present, body bytes. -/
structure FetchResponse where
  ok : Bool
  status : Nat
  contentType : Option String
  bytes : List Nat
deriving DecidableEq, Repr

/-- String.prototype.startsWith. -/
def startsWithStr (s p : String) : Bool :=
  startsWithList s.data p.data

/-- downloadPokemonImage (lines 148-170) applied to the response obtained
for the URL (redirector resolution and the network call itself are
external, so the response is a parameter): fails when the response is not
ok, or when its content type does not start with image/ after lowercasing;
otherwise yields the bytes and content type. -/
def downloadPokemonImage (url : String) (resp : FetchResponse) :
    Except String DownloadedImage :=
  if resp.ok = false then
    .error ("Image download failed (" ++ toString resp.status ++ ") from " ++ url)
  else
    let contentType := resp.contentType.getD ""
    if startsWithStr (toLowerStr contentType) "image/" = false then
      .error ("Provided URL did not return an image (content-type: " ++
        (if contentType = "" then "unknown" else contentType) ++ ")")
    else
      .ok ⟨contentType, resp.bytes⟩

/-- Split a character list on a separator character. -/
def splitOnChar (c : Char) (cs : List Char) : List (List Char) :=
  cs.foldr
    (fun a acc =>
      match acc with
      | [] => [[a]]
      | g :: gs => if a == c then [] :: g :: gs else (a :: g) :: gs)
    [[]]

/-- path.extname: the suffix from the last dot of the last path segment;
empty when there is no dot or the dot leads the segment. -/
def pathExtname (cs : List Char) : String :=
  let base := (splitOnChar '/' cs).getLastD []
  let afterRev := base.reverse.takeWhile (fun c => c != '.')
  if afterRev.length = base.length then ""
  else if base.length - afterRev.length = 1 then ""
  else ⟨'.' :: afterRev.reverse⟩

/-- The content-type table of getImageExtension (lines 26-34). -/
def contentTypeExt (ct : String) : Option String :=
  if ct = "image/png" then some ".png"
  else if ct = "image/jpeg" then some ".jpg"
  else if ct = "image/jpg" then some ".jpg"
  else if ct = "image/webp" then some ".webp"
  else if ct = "image/gif" then some ".gif"
  else if ct = "image/avif" then some ".avif"
  else if ct = "image/svg+xml" then some ".svg"
  else none

/-- getImageExtension (lines 25-42): extension from the content type first,
else from the URL before any query string, else the png default. -/
def getImageExtension (contentType imageUrl : String) : String :=
  match contentTypeExt (toLowerStr contentType) with
  | some e => e
  | none =>
    let cleanUrl := ((splitOnChar '?' imageUrl.data).headD []).map Char.toLower
    let e := pathExtname cleanUrl
    if e = "" then ".png" else e

/-- Modelled from the spec: the pokemon schema (src/schema/pokemon.js is not
among the sources). The data model section states type is a list of category
strings, so the store cast accepts string entries (numbers stringify) and
rejects other shapes. -/
def castTypeElem : JsVal → Option String
  | .str s => some s
  | .num n => some (toString n)
  | _ => none

/-- Modelled from the spec: cast of the type list, see castTypeElem. -/
def castTypes : JsVal → Option (List String)
  | .arr xs => xs.mapM castTypeElem
  | _ => none

/-- Modelled from the spec: base is a mapping of stat name to integer
value, so only integer values cast. -/
def castBaseVal : JsVal → Option Int
  | .num n => some n
  | _ => none

/-- Modelled from the spec: cast of the base mapping, see castBaseVal. -/
def castBase : JsVal → Option (List (String × Int))
  | .obj fs => fs.mapM (fun p => (castBaseVal p.2).map (fun v => (p.1, v)))
  | _ => none

/-- The duplicate check of the create endpoint (lines 316-321): some stored
record matches the requested english name on its english name or the
requested french name on its french name, case-insensitively, anchored. -/
def dupExists (store : List Pokemon) (e f : String) : Bool :=
  store.any (fun r => matchesCI r.name.english e || matchesCI r.name.french f)

/-- The largest id of the store (findOne sorted by id descending,
line 326). -/
def maxIdList : List Int → Option Int
  | [] => none
  | i :: rest =>
    match maxIdList rest with
    | none => some i
    | some m => some (if i ≤ m then m else i)

/-- The id computation (latestPokemon?.id || 0) + 1 at line 327; a latest id
of zero is falsy and also falls back to zero. -/
def newIdFor (store : List Pokemon) : Int :=
  (match maxIdList (store.map Pokemon.id) with
   | none => 0
   | some i => if i = 0 then 0 else i) + 1

/-- The outcome of a create request: status, the record store after the
request, the persisted record if any, the error payload if any. -/
structure CreateOutcome where
  status : Nat
  store : List Pokemon
  created : Option Pokemon
  error : Option String
deriving DecidableEq, Repr

/-- POST /pokemonCreate (lines 299-346): validate the body shape, reject a
case-insensitive duplicate on either locale name with 409, compute the next
id, download the image (the fetch response for the image URL is the resp
parameter), derive the extension and the public asset URL from the request
protocol and host, persist the record and answer 201. A thrown download
error is caught and answered with 500, leaving the store unchanged. A
truthy non-string name locale makes the regex construction at line 318
throw a TypeError, caught as 500. The record cast models the store schema
(castTypes, castBase). -/
def pokemonCreate (store : List Pokemon) (body : JsVal) (resp : FetchResponse)
    (proto host : String) : CreateOutcome :=
  match validateCreate body with
  | some msg => ⟨400, store, none, some msg⟩
  | none =>
    match getField (getField body "name") "english",
        getField (getField body "name") "french",
        getField body "imageUrl" with
    | .str e, .str f, .str u =>
      if dupExists store e f then
        ⟨409, store, none, some "Pokemon already exists (english or french name)"⟩
      else
        let newId := newIdFor store
        match downloadPokemonImage u resp with
        | .error msg => ⟨500, store, none, some msg⟩
        | .ok img =>
          match castTypes (getField body "type"), castBase (getField body "base") with
          | some ts, some bs =>
            let fileName := toString newId ++ getImageExtension img.contentType u
            let newRec : Pokemon :=
              ⟨newId, ⟨e, f⟩, ts, some bs,
                proto ++ "://" ++ host ++ "/assets/pokemons/" ++ fileName⟩
            ⟨201, store ++ [newRec], some newRec, none⟩
          | _, _ => ⟨500, store, none, some "Cast to schema failed"⟩
    | _, _, _ => ⟨500, store, none, some "TypeError"⟩

/-- A body that passes validation carries a non-empty string imageUrl. -/
theorem valid_imageUrl_string {b : JsVal} (h : validateCreate b = none) :
    ∃ u, getField b "imageUrl" = JsVal.str u ∧ u ≠ "" := by
  simp only [validateCreate] at h
  split_ifs at h with h1 h2 h3 h4
  · have h5 : (truthy (getField b "imageUrl") && isStringVal (getField b "imageUrl")) = true := by
      revert h4
      cases (truthy (getField b "imageUrl") && isStringVal (getField b "imageUrl")) <;> simp
    cases hv : getField b "imageUrl" with
    | str s =>
      rw [hv] at h5
      simp only [truthy, isStringVal, Bool.and_true] at h5
      exact ⟨s, rfl, by simpa using h5⟩
    | undefined => rw [hv] at h5; simp [truthy, isStringVal] at h5
    | null => rw [hv] at h5; simp [truthy, isStringVal] at h5
    | bool bb => rw [hv] at h5; simp [truthy, isStringVal] at h5
    | num n => rw [hv] at h5; simp [truthy, isStringVal] at h5
    | arr xs => rw [hv] at h5; simp [truthy, isStringVal] at h5
    | obj fs => rw [hv] at h5; simp [truthy, isStringVal] at h5

/-- The computed latest id is a member and an upper bound. -/
theorem maxIdList_spec {l : List Int} {m : Int} (h : maxIdList l = some m) :
    m ∈ l ∧ ∀ i ∈ l, i ≤ m := by
  induction l generalizing m with
  | nil => cases h
  | cons i rest ih =>
    simp only [maxIdList] at h
    cases hr : maxIdList rest with
    | none =>
      rw [hr] at h
      have him : i = m := Option.some.inj h
      subst him
      have hrest : rest = [] := by
        cases rest with
        | nil => rfl
        | cons j t =>
          exfalso
          simp only [maxIdList] at hr
          cases ht : maxIdList t with
          | none => rw [ht] at hr; exact Option.noConfusion hr
          | some mm => rw [ht] at hr; exact Option.noConfusion hr
      subst hrest
      refine ⟨List.mem_cons_self i [], ?_⟩
      intro x hx
      rcases List.mem_cons.mp hx with rfl | hx'
      · exact le_refl x
      · cases hx'
    | some mr =>
      rw [hr] at h
      obtain ⟨hmem, hbnd⟩ := ih hr
      have hval : (if i ≤ mr then mr else i) = m := Option.some.inj h
      by_cases hle : i ≤ mr
      · rw [if_pos hle] at hval
        subst hval
        refine ⟨List.mem_cons_of_mem i hmem, ?_⟩
        intro x hx
        rcases List.mem_cons.mp hx with rfl | hx'
        · exact hle
        · exact hbnd x hx'
      · rw [if_neg hle] at hval
        subst hval
        refine ⟨List.mem_cons_self _ _, ?_⟩
        intro x hx
        rcases List.mem_cons.mp hx with rfl | hx'
        · exact le_refl _
        · exact le_trans (hbnd x hx') (le_of_not_le hle)

/-- A non-empty list has a latest id. -/
theorem maxIdList_isSome {l : List Int} (h : l ≠ []) :
    ∃ m, maxIdList l = some m := by
  cases l with
  | nil => exact absurd rfl h
  | cons i rest =>
    simp only [maxIdList]
    cases maxIdList rest with
    | none => exact ⟨i, rfl⟩
    | some mr => exact ⟨_, rfl⟩

/-- The zero fallback of (latestPokemon?.id || 0) + 1 never changes the
value: the new id is always the latest id plus one. -/
theorem newIdFor_eq_max {store : List Pokemon} {m : Int}
    (h : maxIdList (store.map Pokemon.id) = some m) : newIdFor store = m + 1 := by
  simp only [newIdFor, h]
  by_cases hm : m = 0
  · rw [if_pos hm, hm]
  · rw [if_neg hm]

/-- C3: a create whose body passes shape validation and whose english name
matches a stored english name or whose french name matches a stored french
name as a case-insensitive full-string match fails with 409, the store is
unchanged and nothing is created. -/
theorem pokemonCreate_duplicate_409 (store : List Pokemon) (body : JsVal)
    (resp : FetchResponse) (proto host : String) (e f : String)
    (hv : validateCreate body = none)
    (he : getField (getField body "name") "english" = JsVal.str e)
    (hf : getField (getField body "name") "french" = JsVal.str f)
    (hd : dupExists store e f = true) :
    pokemonCreate store body resp proto host =
      ⟨409, store, none, some "Pokemon already exists (english or french name)"⟩ := by
  obtain ⟨u, hu, _⟩ := valid_imageUrl_string hv
  simp [pokemonCreate, hv, he, hf, hu, hd]

/-- C4: when the image download fails, because the response is not ok or
its content type does not start with image slash, a create that reached the
download step fails as a whole with 500 and no record is persisted. -/
theorem pokemonCreate_download_failure_500 (store : List Pokemon) (body : JsVal)
    (resp : FetchResponse) (proto host : String) (e f : String)
    (hv : validateCreate body = none)
    (he : getField (getField body "name") "english" = JsVal.str e)
    (hf : getField (getField body "name") "french" = JsVal.str f)
    (hd : dupExists store e f = false)
    (hfail : resp.ok = false ∨
      startsWithStr (toLowerStr (resp.contentType.getD "")) "image/" = false) :
    (pokemonCreate store body resp proto host).status = 500 ∧
    (pokemonCreate store body resp proto host).store = store ∧
    (pokemonCreate store body resp proto host).created = none := by
  obtain ⟨u, hu, _⟩ := valid_imageUrl_string hv
  have hdl : ∃ msg, downloadPokemonImage u resp = Except.error msg := by
    simp only [downloadPokemonImage]
    rcases hfail with hok | hct
    · rw [if_pos hok]
      exact ⟨_, rfl⟩
    · by_cases hok : resp.ok = false
      · rw [if_pos hok]
        exact ⟨_, rfl⟩
      · rw [if_neg hok, if_pos hct]
        exact ⟨_, rfl⟩
  obtain ⟨msg, hdl⟩ := hdl
  simp [pokemonCreate, hv, he, hf, hu, hd, hdl]

/-- C7: the record persisted by a successful create receives as id the
maximum id among the existing records plus one, and the id 1 when the store
is empty. -/
theorem pokemonCreate_id_assignment (store : List Pokemon) (body : JsVal)
    (resp : FetchResponse) (proto host : String) (p : Pokemon)
    (hp : (pokemonCreate store body resp proto host).created = some p) :
    (store = [] → p.id = 1) ∧
    (∀ m, m ∈ store.map Pokemon.id → (∀ i ∈ store.map Pokemon.id, i ≤ m) →
      p.id = m + 1) := by
  have hid : p.id = newIdFor store := by
    simp only [pokemonCreate] at hp
    repeat' split at hp
    all_goals simp at hp
    subst hp
    rfl
  constructor
  · intro hempty
    subst hempty
    rw [hid]
    rfl
  · intro m hm hbnd
    rw [hid]
    have hne : store.map Pokemon.id ≠ [] := by
      intro hnil
      rw [hnil] at hm
      cases hm
    obtain ⟨mx, hmx⟩ := maxIdList_isSome hne
    obtain ⟨hmem, hbnd'⟩ := maxIdList_spec hmx
    have hmm : mx = m := le_antisymm (hbnd mx hmem) (hbnd' m hm)
    subst hmm
    exact newIdFor_eq_max hmx

/-- The create body of the first request of the collision scenario. -/
def pikaBody : JsVal :=
  JsVal.obj
    [("name", JsVal.obj [("english", JsVal.str "Pika"), ("french", JsVal.str "Pika")]),
     ("type", JsVal.arr [JsVal.str "electric"]),
     ("base", JsVal.obj [("hp", JsVal.num 35)]),
     ("imageUrl", JsVal.str "http://img.example/p.png")]

/-- The create body of the second request of the collision scenario. -/
def pikaBody2 : JsVal :=
  JsVal.obj
    [("name", JsVal.obj [("english", JsVal.str "pika"), ("french", JsVal.str "Autre")]),
     ("type", JsVal.arr [JsVal.str "electric"]),
     ("base", JsVal.obj [("hp", JsVal.num 35)]),
     ("imageUrl", JsVal.str "http://img.example/p.png")]

/-- A successful png fetch response. -/
def okPngResp : FetchResponse :=
  ⟨true, 200, some "image/png", [137, 80]⟩

/-- A response carrying an html page instead of an image. -/
def htmlResp : FetchResponse :=
  ⟨true, 200, some "text/html", [60]⟩

/-- Concrete instantiation of the duplicate rejection: creating Pika and
Pika, then creating pika and Autre, answers 409 with the store unchanged. -/
theorem pokemonCreate_duplicate_409_witness :
    (pokemonCreate [] pikaBody okPngResp "http" "host").status = 201 ∧
    pokemonCreate (pokemonCreate [] pikaBody okPngResp "http" "host").store
        pikaBody2 okPngResp "http" "host" =
      ⟨409, (pokemonCreate [] pikaBody okPngResp "http" "host").store, none,
        some "Pokemon already exists (english or french name)"⟩ :=
  ⟨by decide,
    pokemonCreate_duplicate_409 _ pikaBody2 okPngResp "http" "host"
      "pika" "Autre" (by decide) (by rfl) (by rfl) (by decide)⟩

/-- Concrete instantiation of the download failure: a text/html response
fails the whole create with 500 and no record persisted. -/
theorem pokemonCreate_download_failure_witness :
    (pokemonCreate [] pikaBody htmlResp "http" "host").status = 500 ∧
    (pokemonCreate [] pikaBody htmlResp "http" "host").store = [] ∧
    (pokemonCreate [] pikaBody htmlResp "http" "host").created = none :=
  pokemonCreate_download_failure_500 [] pikaBody htmlResp "http" "host"
    "Pika" "Pika" (by decide) (by rfl) (by rfl) (by decide) (Or.inr (by decide))

/-- A pre-existing record with id 2 for the id-assignment scenario. -/
def bulbaRec : Pokemon :=
  ⟨2, ⟨"Bulbasaur", "Bulbizarre"⟩, ["grass"], some [("hp", 45)], "img"⟩

/-- Concrete instantiation of the id assignment: creating over a store whose
largest id is 2 persists a record with id 3. -/
theorem pokemonCreate_id_witness :
    (⟨3, ⟨"Pika", "Pika"⟩, ["electric"], some [("hp", 35)],
        "http://host/assets/pokemons/3.png"⟩ : Pokemon).id = 2 + 1 :=
  (pokemonCreate_id_assignment [bulbaRec] pikaBody okPngResp "http" "host"
      ⟨3, ⟨"Pika", "Pika"⟩, ["electric"], some [("hp", 35)],
        "http://host/assets/pokemons/3.png"⟩ (by decide)).2 2 (by decide) (by decide)

/-- A body whose type field is a number, failing the array check. -/
def bodyBadType : JsVal :=
  JsVal.obj
    [("name", JsVal.obj [("english", JsVal.str "Pika"), ("french", JsVal.str "Pika")]),
     ("type", JsVal.num 5),
     ("base", JsVal.obj [("hp", JsVal.num 35)]),
     ("imageUrl", JsVal.str "http://img.example/p.png")]

/-- Concrete instantiation of the amended validation contract: a numeric
type field draws the field-specific type message. -/
theorem validateCreate_amended_spec_witness :
    "type must be a non-empty array" = "name.english and name.french are required" ∨
    "type must be a non-empty array" = "type must be a non-empty array" ∨
    "type must be a non-empty array" = "base stats are required" ∨
    "type must be a non-empty array" = "imageUrl is required" :=
  (validateCreate_amended_spec bodyBadType).2 "type must be a non-empty array" (by rfl)
